import Mathlib

/-!
Verification of the hybrid learning-path recommendation engine
(`backend/app/services/recommender.py`, class `HybridRecommender`).

The Python source is shallowly embedded below:

* Python strings are Lean `String`s; `str.lower`, `str.strip` and
  `str.split(',')` are re-implemented over the character list so that all
  definitions are executable and kernel-reducible.
* Python `int` is `ℤ`, real arithmetic (floats `0.6`, `1.3`, ...) is
  modelled exactly over `ℚ`; Python `int(x)` is truncation toward zero
  (`qtrunc`) and Python `round(x, 1)` is round-half-to-even at one decimal
  (`pyRound1`), following the documented semantics of `round`.
* The learner profile is a Python `dict`; it is embedded as an association
  list of string keys and typed values, with `dict.get`-style lookups.
* The scikit-learn TF-IDF vectorizer and `NearestNeighbors` index are
  external library components.  They are modelled as an abstract
  deterministic query function stored in the engine (`kneighborsFn`),
  returning (index, cosine-distance) pairs; the call-time validation that
  `n_neighbors` does not exceed the number of fitted samples (which is the
  number of job-role rows) mirrors scikit-learn's documented `kneighbors`
  contract and is made explicit in `kneighborsCall`.
* Fallible code (`raise ValueError`, the library validation error, list
  indexing) returns `Except String`.
-/

namespace PLP

/-- Python `str.lower` on one ASCII character. -/
def pyLowerChar (c : Char) : Char :=
  if 65 ≤ c.toNat ∧ c.toNat ≤ 90 then Char.ofNat (c.toNat + 32) else c

/-- Python `str.lower` (ASCII range, which covers the catalog data). -/
def pyLower (s : String) : String :=
  String.mk (s.data.map pyLowerChar)

/-- Whitespace characters stripped by Python `str.strip()`. -/
def isPySpace (c : Char) : Bool :=
  c == ' ' || c == '\t' || c == '\n' || c == '\r' || c == '\x0b' || c == '\x0c'

/-- Python `str.strip()`: remove leading and trailing whitespace. -/
def pyStrip (s : String) : String :=
  String.mk (((s.data.dropWhile isPySpace).reverse.dropWhile isPySpace).reverse)

/-- Python `str.split(',')` on a character list: splitting always yields one
more group than there are commas, so the result is never empty (in
particular `"".split(',') == ['']`). -/
def splitCommaChars : List Char → List (List Char)
  | [] => [[]]
  | c :: rest =>
    let r := splitCommaChars rest
    if c = ',' then [] :: r
    else
      match r with
      | [] => [[c]]
      | g :: gs => (c :: g) :: gs

/-- Python `s.split(',')`. -/
def splitComma (s : String) : List String :=
  (splitCommaChars s.data).map (fun l => String.mk l)

/-- Python `', '.join(l)`. -/
def joinComma : List String → String
  | [] => ""
  | [s] => s
  | s :: rest => s ++ ", " ++ joinComma rest

/-- Python `int(x)` on a rational: truncation toward zero. -/
def qtrunc (q : ℚ) : ℤ :=
  if 0 ≤ q then ⌊q⌋ else -⌊-q⌋

/-- Round a rational to the nearest integer, ties to even — the documented
semantics of Python's built-in `round`. -/
def roundHalfEven (q : ℚ) : ℤ :=
  if q - (⌊q⌋ : ℚ) < 1/2 then ⌊q⌋
  else if 1/2 < q - (⌊q⌋ : ℚ) then ⌊q⌋ + 1
  else if ⌊q⌋ % 2 = 0 then ⌊q⌋ else ⌊q⌋ + 1

/-- Python `round(x, 1)`: round to one decimal place. -/
def pyRound1 (q : ℚ) : ℚ :=
  (roundHalfEven (q * 10) : ℚ) / 10

/-- A row of the `job_roles` catalog table, as loaded by `_load_data`.
`demand_score` is optional because the scoring code reads it with
`job_role.get('demand_score', 50)`. -/
structure JobRole where
  job_title : String
  skills : String
  demand_score : Option ℤ
  suggested_microcredentials : String
deriving DecidableEq

/-- A row of the `nsqf_levels` catalog table. -/
structure NsqfLevel where
  level : ℤ
  qualification : String
deriving DecidableEq

/-- One pathway step dictionary built by `_create_learning_pathway`. -/
structure Step where
  step : String
  title : String
  description : String
  duration_weeks : ℤ
  type : String
  level : ℤ
deriving DecidableEq

/-- One recommendation dictionary appended by `compute_recommendations`. -/
structure Recommendation where
  job_title : String
  match_score : ℚ
  pathway : List Step
  explanation : String
deriving DecidableEq

/-- The `profile` summary block of the returned dictionary. -/
structure ProfileSummary where
  education_level : ℤ
  skills_count : ℕ
  learning_pace : String
deriving DecidableEq

/-- The full dictionary returned by `compute_recommendations`. -/
structure RecommendationSet where
  recommendations : List Recommendation
  profile : ProfileSummary
deriving DecidableEq

/-- A value stored in the learner-profile dictionary. -/
inductive PVal where
  | int (n : ℤ)
  | str (s : String)
  | strList (l : List String)
deriving DecidableEq

/-- The learner profile: a Python `dict` embedded as an association list. -/
abbrev Profile := List (String × PVal)

/-- Python `profile[k]` presence: first binding of key `k`, if any. -/
def plookup (p : Profile) (k : String) : Option PVal :=
  match p.find? (fun kv => kv.1 == k) with
  | some kv => some kv.2
  | none => none

/-- `profile.get('prior_skills', [])`. -/
def getPriorSkills (p : Profile) : List String :=
  match plookup p "prior_skills" with
  | some (PVal.strList l) => l
  | _ => []

/-- `profile.get('education_level', 1)`. -/
def getEducationLevel (p : Profile) : ℤ :=
  match plookup p "education_level" with
  | some (PVal.int n) => n
  | _ => 1

/-- `profile.get('learning_pace', 'normal')`. -/
def getLearningPace (p : Profile) : String :=
  match plookup p "learning_pace" with
  | some (PVal.str s) => s
  | _ => "normal"

/-- `_normalize_skills`: `[skill.lower().strip() for skill in skills]`.
Note: it does not drop entries that are empty after stripping. -/
def normalizeSkills (skills : List String) : List String :=
  skills.map (fun s => pyStrip (pyLower s))

/-- Insert into a sorted list: `a` goes in front of the first element `b`
with `le a b`.  This is the insertion step of a stable sort. -/
def ordInsert (le : α → α → Bool) (a : α) : List α → List α
  | [] => [a]
  | b :: l => if le a b then a :: b :: l else b :: ordInsert le a l

/-- Stable insertion sort.  Python's `list.sort` is a stable sort; a stable
sort by a total preorder is unique, so `insSort` with the matching
comparison computes exactly what `list.sort` computes. -/
def insSort (le : α → α → Bool) : List α → List α
  | [] => []
  | a :: l => ordInsert le a (insSort le l)

theorem mem_ordInsert (le : α → α → Bool) (a x : α) (l : List α) :
    x ∈ ordInsert le a l ↔ x ∈ a :: l := by
  induction l with
  | nil => simp [ordInsert]
  | cons b t ih =>
    simp only [ordInsert]
    split
    · simp
    · simp only [List.mem_cons, ih, List.mem_cons]
      tauto

theorem mem_insSort (le : α → α → Bool) (x : α) (l : List α) :
    x ∈ insSort le l ↔ x ∈ l := by
  induction l with
  | nil => simp [insSort]
  | cons a t ih =>
    simp only [insSort, mem_ordInsert, List.mem_cons, ih]

theorem perm_insSort (le : α → α → Bool) (l : List α) :
    List.Perm (insSort le l) l := by
  induction l with
  | nil => exact List.Perm.refl _
  | cons a t ih =>
    have hoi : ∀ (m : List α), List.Perm (ordInsert le a m) (a :: m) := by
      intro m
      induction m with
      | nil => exact List.Perm.refl _
      | cons b u ihm =>
        simp only [ordInsert]
        split
        · exact List.Perm.refl _
        · exact (List.Perm.cons b ihm).trans (List.Perm.swap a b u)
    exact (hoi (insSort le t)).trans (List.Perm.cons a ih)

theorem pairwise_ordInsert (le : α → α → Bool)
    (htot : ∀ a b, le a b = true ∨ le b a = true)
    (htrans : ∀ a b c, le a b = true → le b c = true → le a c = true)
    (a : α) (l : List α)
    (hl : l.Pairwise (fun x y => le x y = true)) :
    (ordInsert le a l).Pairwise (fun x y => le x y = true) := by
  induction l with
  | nil => simp [ordInsert]
  | cons b t ih =>
    rcases List.pairwise_cons.mp hl with ⟨hbt, ht⟩
    simp only [ordInsert]
    split
    · rename_i hab
      refine List.pairwise_cons.mpr ⟨?_, hl⟩
      intro x hx
      rcases List.mem_cons.mp hx with rfl | hx
      · exact hab
      · exact htrans a b x hab (hbt x hx)
    · rename_i hab
      have hba : le b a = true := by
        rcases htot a b with h | h
        · exact absurd h hab
        · exact h
      refine List.pairwise_cons.mpr ⟨?_, ih ht⟩
      intro x hx
      rcases List.mem_cons.mp ((mem_ordInsert le a x t).mp hx) with rfl | h
      · exact hba
      · exact hbt x h

theorem pairwise_insSort (le : α → α → Bool)
    (htot : ∀ a b, le a b = true ∨ le b a = true)
    (htrans : ∀ a b c, le a b = true → le b c = true → le a c = true)
    (l : List α) :
    (insSort le l).Pairwise (fun x y => le x y = true) := by
  induction l with
  | nil => simp [insSort]
  | cons a t ih => exact pairwise_ordInsert le htot htrans a _ ih

/-- Stability of `ordInsert`, phrased through filters on a sort key `sc`:
as long as equal keys compare `le`-true, inserting `a` prepends it to the
filter block of its own key and leaves every other key block unchanged. -/
theorem filter_ordInsert {β : Type} [DecidableEq β] (le : α → α → Bool)
    (sc : α → β)
    (hrefl : ∀ a b, sc a = sc b → le a b = true)
    (a : α) (l : List α) (s : β) :
    (ordInsert le a l).filter (fun x => decide (sc x = s)) =
      if sc a = s then a :: l.filter (fun x => decide (sc x = s))
      else l.filter (fun x => decide (sc x = s)) := by
  induction l with
  | nil =>
    by_cases h : sc a = s
    · simp [ordInsert, List.filter_cons, h]
    · simp [ordInsert, List.filter_cons, h]
  | cons b t ih =>
    simp only [ordInsert]
    split
    · rename_i hab
      by_cases hs : sc a = s
      · simp [List.filter_cons, hs]
      · simp [List.filter_cons, hs]
    · rename_i hab
      have hne : sc a ≠ sc b := fun h => hab (hrefl a b h)
      by_cases hs : sc a = s
      · have hbs : ¬ sc b = s := fun h => hne (hs.trans h.symm)
        simp [List.filter_cons, hs, hbs, ih]
      · simp only [List.filter_cons, ih, if_neg hs]

/-- Stability of the full sort: every key block of the sorted list equals
the key block of the input list, in input order. -/
theorem filter_insSort {β : Type} [DecidableEq β] (le : α → α → Bool)
    (sc : α → β)
    (hrefl : ∀ a b, sc a = sc b → le a b = true)
    (l : List α) (s : β) :
    (insSort le l).filter (fun x => decide (sc x = s)) =
      l.filter (fun x => decide (sc x = s)) := by
  induction l with
  | nil => rfl
  | cons a t ih =>
    rw [insSort, filter_ordInsert le sc hrefl a _ s, ih, List.filter_cons]
    by_cases h : sc a = s
    · simp [h]
    · simp [h]

/-- Key comparison for `pathway_levels.sort(key=lambda x: x['level'])`:
stable ascending by level. -/
def levelLe (a b : NsqfLevel) : Bool :=
  decide (a.level ≤ b.level)

/-- Key comparison for
`recommendations.sort(key=lambda x: x['match_score'], reverse=True)`:
stable descending by match score. -/
def recLe (a b : Recommendation) : Bool :=
  decide (b.match_score ≤ a.match_score)

/-- `_map_to_nsqf_pathway`: return `[]` when `current_level >= target_level`,
otherwise the catalog levels with `current_level < level <= target_level`,
sorted ascending by level. -/
def mapToNsqfPathway (nsqf : List NsqfLevel) (current_level target_level : ℤ) :
    List NsqfLevel :=
  if target_level ≤ current_level then []
  else insSort levelLe
    (nsqf.filter (fun l =>
      decide (current_level < l.level) && decide (l.level ≤ target_level)))

/-- `[m.strip() for m in job_role['suggested_microcredentials'].split(',')]`. -/
def microList (role : JobRole) : List String :=
  (splitComma role.suggested_microcredentials).map pyStrip

instance : Inhabited NsqfLevel := ⟨⟨0, ""⟩⟩

instance : Inhabited JobRole := ⟨⟨"", "", none, ""⟩⟩

instance : Inhabited Step := ⟨⟨"", "", "", 0, "", 0⟩⟩

/-- The "Foundational" step dictionary (`nsqf_pathway[0]`, 12 weeks). -/
def foundStep (l0 : NsqfLevel) : Step :=
  { step := "Foundational"
    title := l0.qualification
    description := "Build fundamental knowledge with " ++ l0.qualification
    duration_weeks := 12
    type := "course"
    level := l0.level }

/-- The "Core" step dictionary (`nsqf_pathway[-1]`, 16 weeks). -/
def coreStep (lN : NsqfLevel) : Step :=
  { step := "Core"
    title := lN.qualification
    description := "Deepen your expertise with " ++ lN.qualification
    duration_weeks := 16
    type := "course"
    level := lN.level }

/-- The "Micro-credential" step dictionary (`microcredentials[0]`, 8 weeks). -/
def microStep (m0 : String) (target_level : ℤ) : Step :=
  { step := "Micro-credential"
    title := m0
    description := "Specialize with " ++ m0 ++ " certification"
    duration_weeks := 8
    type := "certification"
    level := target_level }

/-- The "On-the-job/Internship" step dictionary (12 weeks). -/
def internStep (role : JobRole) (target_level : ℤ) : Step :=
  { step := "On-the-job/Internship"
    title := role.job_title ++ " Internship"
    description := "Gain practical experience as a " ++ role.job_title
    duration_weeks := 12
    type := "internship"
    level := target_level }

/-- The four conditional appends of `_create_learning_pathway`, taking the
already-computed pathway levels and microcredential list.  The Python guard
`if nsqf_pathway and len(nsqf_pathway) > 0` is non-emptiness; `[-1]` is the
last element, reached only under the `len > 1` guard. -/
def buildPathway (nsqf_pathway : List NsqfLevel) (micro : List String)
    (role : JobRole) (target_level : ℤ) : List Step :=
  (match nsqf_pathway with
   | [] => []
   | l0 :: _ => [foundStep l0])
  ++ (if 1 < nsqf_pathway.length then [coreStep (nsqf_pathway.getLastD default)]
      else [])
  ++ (match micro with
      | [] => []
      | m0 :: _ => [microStep m0 target_level])
  ++ [internStep role target_level]

/-- `_create_learning_pathway`: target level is fixed at 7. -/
def createLearningPathway (nsqf : List NsqfLevel) (role : JobRole)
    (current_level : ℤ) : List Step :=
  buildPathway (mapToNsqfPathway nsqf current_level 7) (microList role) role 7

/-- The pace-multiplier dictionary lookup
`{'slow': 1.3, 'normal': 1.0, 'fast': 0.7}.get(pace, 1.0)`. -/
def paceMultiplier (pace : String) : ℚ :=
  if pace = "slow" then 1.3
  else if pace = "normal" then 1.0
  else if pace = "fast" then 0.7
  else 1.0

/-- `_generate_explanation`. -/
def generateExplanation (role : JobRole) (skill_overlap : ℚ)
    (demand_score : ℤ) : String :=
  "This role matches " ++ toString (qtrunc (skill_overlap * 100)) ++
    "% of your existing skills " ++
    "and has a high demand score of " ++ toString demand_score ++ "/100. " ++
    "The role typically requires skills in: " ++ role.skills ++ "."

/-- The body of the per-neighbor loop of `compute_recommendations`: scoring,
pathway construction, pace scaling and explanation for one
(job role, cosine distance) pair. -/
def mkRecommendation (nsqf : List NsqfLevel) (profile : Profile)
    (role : JobRole) (distance : ℚ) : Recommendation :=
  let skill_overlap : ℚ := 1 - distance
  let demand_score : ℤ := role.demand_score.getD 50
  let combined_score : ℚ :=
    skill_overlap * 0.6 + (demand_score : ℚ) / 100 * 0.4
  let pathway := createLearningPathway nsqf role (getEducationLevel profile)
  let m := paceMultiplier (getLearningPace profile)
  let pathway := pathway.map (fun s =>
    { s with duration_weeks := qtrunc ((s.duration_weeks : ℚ) * m) })
  { job_title := role.job_title
    match_score := pyRound1 (combined_score * 100)
    pathway := pathway
    explanation := generateExplanation role skill_overlap demand_score }

/-- The engine after `_load_data` and `_train_model`.  The fitted TF-IDF
vectorizer and cosine `NearestNeighbors` index are external scikit-learn
components; their composition
`kneighbors(vectorizer.transform([text]), n_neighbors=k)` is modelled as the
abstract deterministic function `kneighborsFn`, returning
(row index, cosine distance) pairs. -/
structure Engine where
  job_roles : List JobRole
  nsqf_levels : List NsqfLevel
  kneighborsFn : String → ℕ → List (ℕ × ℚ)

/-- The message of the error scikit-learn's `kneighbors` raises when more
neighbors are requested than there are fitted samples. -/
def kneighborsErrMsg : String := "Expected n_neighbors <= n_samples"

/-- The `self.nn_model.kneighbors(user_vector, n_neighbors=k)` call.  The
number of fitted samples is the number of job-role rows (one matrix row per
role).  Per scikit-learn's documented contract the call fails when
`k` exceeds that count; the repository code performs no clamping. -/
def kneighborsCall (e : Engine) (query : String) (k : ℕ) :
    Except String (List (ℕ × ℚ)) :=
  if e.job_roles.length < k then Except.error kneighborsErrMsg
  else Except.ok (e.kneighborsFn query k)

/-- The `self.job_roles[idx]` lookups for the returned neighbor indices;
Python list indexing raises on an out-of-range index. -/
def lookupRoles (roles : List JobRole) :
    List (ℕ × ℚ) → Except String (List (JobRole × ℚ))
  | [] => Except.ok []
  | (i, d) :: rest =>
    match roles[i]? with
    | none => Except.error "list index out of range"
    | some r =>
      match lookupRoles roles rest with
      | Except.error m => Except.error m
      | Except.ok l => Except.ok ((r, d) :: l)

/-- `HybridRecommender.compute_recommendations`. -/
def computeRecommendations (e : Engine) (profile : Profile) :
    Except String RecommendationSet :=
  let normalized_skills := normalizeSkills (getPriorSkills profile)
  if normalized_skills = [] then
    Except.error "No skills provided in the profile"
  else
    match kneighborsCall e (joinComma normalized_skills) 3 with
    | Except.error m => Except.error m
    | Except.ok pairs =>
      match lookupRoles e.job_roles pairs with
      | Except.error m => Except.error m
      | Except.ok role_dists =>
        let recommendations := role_dists.map (fun rd =>
          mkRecommendation e.nsqf_levels profile rd.1 rd.2)
        Except.ok
          { recommendations := insSort recLe recommendations
            profile :=
              { education_level := getEducationLevel profile
                skills_count := normalized_skills.length
                learning_pace := getLearningPace profile } }

/-- The recommendation list of a successful `compute_recommendations` call
(empty on failure). -/
def recsListOf (e : Engine) (profile : Profile) : List Recommendation :=
  match computeRecommendations e profile with
  | Except.ok rs => rs.recommendations
  | Except.error _ => []

/-- The recommendation list in original nearest-neighbor order, before the
final sort. -/
def preSortRecs (e : Engine) (profile : Profile) : List Recommendation :=
  match lookupRoles e.job_roles
      (e.kneighborsFn (joinComma (normalizeSkills (getPriorSkills profile))) 3) with
  | Except.ok rd =>
    rd.map (fun x => mkRecommendation e.nsqf_levels profile x.1 x.2)
  | Except.error _ => []

/-! ### Helper lemmas -/

theorem splitCommaChars_ne_nil (l : List Char) : splitCommaChars l ≠ [] := by
  induction l with
  | nil => simp [splitCommaChars]
  | cons c rest ih =>
    simp only [splitCommaChars]
    split
    · simp
    · cases h : splitCommaChars rest with
      | nil => simp
      | cons g gs => simp

theorem microList_ne_nil (role : JobRole) : microList role ≠ [] := by
  unfold microList splitComma
  intro h
  exact splitCommaChars_ne_nil _ (List.map_eq_nil_iff.mp (List.map_eq_nil_iff.mp h))

theorem mem_buildPathway {s : Step} {pw : List NsqfLevel} {micro : List String}
    {role : JobRole} {tgt : ℤ} :
    s ∈ buildPathway pw micro role tgt ↔
      ((pw ≠ [] ∧ s = foundStep (pw.headD default)) ∨
       (1 < pw.length ∧ s = coreStep (pw.getLastD default)) ∨
       (micro ≠ [] ∧ s = microStep (micro.headD "") tgt) ∨
       s = internStep role tgt) := by
  cases pw with
  | nil =>
    cases micro with
    | nil => simp [buildPathway]
    | cons m0 ms => simp [buildPathway]
  | cons l0 lt =>
    cases micro with
    | nil => simp [buildPathway, List.mem_append]
    | cons m0 ms => simp [buildPathway, List.mem_append]

theorem names_buildPathway (pw : List NsqfLevel) (micro : List String)
    (role : JobRole) (tgt : ℤ) :
    (buildPathway pw micro role tgt).map (fun s => s.step) =
      (match pw with | [] => [] | _ :: _ => ["Foundational"])
      ++ (if 1 < pw.length then ["Core"] else [])
      ++ (match micro with | [] => [] | _ :: _ => ["Micro-credential"])
      ++ ["On-the-job/Internship"] := by
  cases pw with
  | nil =>
    cases micro with
    | nil => simp [buildPathway, foundStep, coreStep, microStep, internStep]
    | cons m0 ms => simp [buildPathway, foundStep, coreStep, microStep, internStep]
  | cons l0 lt =>
    cases micro with
    | nil =>
      simp [buildPathway, foundStep, microStep, internStep]
      split <;> simp [coreStep]
    | cons m0 ms =>
      simp [buildPathway, foundStep, microStep, internStep]
      split <;> simp [coreStep]

theorem sublist_buildPathway_names (pw : List NsqfLevel) (micro : List String)
    (role : JobRole) (tgt : ℤ) :
    ((buildPathway pw micro role tgt).map (fun s => s.step)).Sublist
      ["Foundational", "Core", "Micro-credential", "On-the-job/Internship"] := by
  rw [names_buildPathway]
  show List.Sublist _
    ((["Foundational"] ++ ["Core"] ++ ["Micro-credential"]) ++
      ["On-the-job/Internship"])
  refine List.Sublist.append
    (List.Sublist.append (List.Sublist.append ?_ ?_) ?_) ?_
  · cases pw with
    | nil => exact List.nil_sublist _
    | cons a b => exact List.Sublist.refl _
  · split
    · exact List.Sublist.refl _
    · exact List.nil_sublist _
  · cases micro with
    | nil => exact List.nil_sublist _
    | cons a b => exact List.Sublist.refl _
  · exact List.Sublist.refl _

theorem pairwise_mapToNsqfPathway (nsqf : List NsqfLevel) (cur tgt : ℤ) :
    (mapToNsqfPathway nsqf cur tgt).Pairwise (fun a b => a.level ≤ b.level) := by
  unfold mapToNsqfPathway
  split
  · simp
  · have h := pairwise_insSort levelLe
      (fun a b => by
        unfold levelLe
        rcases le_total a.level b.level with h | h
        · exact Or.inl (decide_eq_true h)
        · exact Or.inr (decide_eq_true h))
      (fun a b c hab hbc => by
        unfold levelLe at hab hbc ⊢
        exact decide_eq_true (le_trans (of_decide_eq_true hab) (of_decide_eq_true hbc)))
      (nsqf.filter (fun l =>
        decide (cur < l.level) && decide (l.level ≤ tgt)))
    exact h.imp (fun hab => of_decide_eq_true hab)

theorem headD_level_le {l : List NsqfLevel}
    (h : l.Pairwise (fun a b => a.level ≤ b.level)) :
    ∀ x ∈ l, (l.headD default).level ≤ x.level := by
  cases l with
  | nil => intro x hx; cases hx
  | cons a t =>
    intro x hx
    rcases List.mem_cons.mp hx with rfl | hx
    · simp
    · exact (List.pairwise_cons.mp h).1 x hx

theorem level_le_getLastD {l : List NsqfLevel}
    (h : l.Pairwise (fun a b => a.level ≤ b.level)) :
    ∀ x ∈ l, x.level ≤ (l.getLastD default).level := by
  induction l with
  | nil => intro x hx; cases hx
  | cons a t ih =>
    intro x hx
    rcases List.pairwise_cons.mp h with ⟨hat, ht⟩
    cases t with
    | nil =>
      rcases List.mem_cons.mp hx with rfl | hx
      · simp
      · cases hx
    | cons b u =>
      have hlast : (List.getLastD (a :: b :: u) default) =
          (List.getLastD (b :: u) default) := by
        simp [List.getLastD_cons]
      rcases List.mem_cons.mp hx with rfl | hx
      · have hmem : List.getLastD (b :: u) default ∈ b :: u := by
          rw [List.getLastD_cons]
          exact List.getLastD_mem_cons u b
        rw [hlast]
        exact hat _ hmem
      · rw [hlast]
        exact ih ht x hx

theorem mapToNsqfPathway_eq_nil_of_ge (nsqf : List NsqfLevel) {cur tgt : ℤ}
    (h : tgt ≤ cur) : mapToNsqfPathway nsqf cur tgt = [] := by
  unfold mapToNsqfPathway
  exact if_pos h

theorem headD_mem {α : Type} {l : List α} (d : α) (h : l ≠ []) :
    l.headD d ∈ l := by
  cases l with
  | nil => exact absurd rfl h
  | cons a t => simp

theorem one_le_qtrunc {q : ℚ} (h : 1 ≤ q) : 1 ≤ qtrunc q := by
  unfold qtrunc
  rw [if_pos (le_trans zero_le_one h)]
  exact Int.le_floor.mpr (by exact_mod_cast h)

theorem roundHalfEven_bounds {x : ℚ} {B : ℤ} (h0 : 0 ≤ x) (hB : x ≤ (B : ℚ)) :
    0 ≤ roundHalfEven x ∧ roundHalfEven x ≤ B := by
  have hf0 : 0 ≤ ⌊x⌋ := Int.floor_nonneg.mpr h0
  have hfB : ⌊x⌋ ≤ B := by
    have h := Int.floor_le_floor hB
    simpa using h
  rcases lt_or_eq_of_le hfB with hlt | heq
  · unfold roundHalfEven
    split_ifs <;> constructor <;> omega
  · have hxB : x = (B : ℚ) := by
      refine le_antisymm hB ?_
      rw [← heq]
      exact Int.floor_le x
    unfold roundHalfEven
    rw [hxB]
    have hfl : ⌊(B : ℚ)⌋ = B := Int.floor_intCast B
    rw [hfl]
    have hr : (B : ℚ) - (B : ℤ) < 1/2 := by
      norm_num
    rw [if_pos hr]
    exact ⟨heq ▸ hf0, le_refl B⟩

theorem pyRound1_bounds {q : ℚ} (h0 : 0 ≤ q) (h1 : q ≤ 100) :
    0 ≤ pyRound1 q ∧ pyRound1 q ≤ 100 := by
  have h10 : 0 ≤ q * 10 := by nlinarith
  have h1000 : q * 10 ≤ ((1000 : ℤ) : ℚ) := by push_cast; nlinarith
  obtain ⟨hl, hr⟩ := roundHalfEven_bounds h10 h1000
  unfold pyRound1
  constructor
  · positivity
  · rw [div_le_iff₀ (by norm_num : (0:ℚ) < 10)]
    calc ((roundHalfEven (q * 10) : ℤ) : ℚ) ≤ ((1000 : ℤ) : ℚ) := by exact_mod_cast hr
    _ = 100 * 10 := by norm_num

theorem duration_of_mem_pathway {st : Step} {nsqf : List NsqfLevel}
    {role : JobRole} {cur : ℤ} (h : st ∈ createLearningPathway nsqf role cur) :
    st.duration_weeks = 8 ∨ st.duration_weeks = 12 ∨ st.duration_weeks = 16 := by
  unfold createLearningPathway at h
  rcases mem_buildPathway.mp h with ⟨_, rfl⟩ | ⟨_, rfl⟩ | ⟨_, rfl⟩ | rfl
  · simp [foundStep]
  · simp [coreStep]
  · simp [microStep]
  · simp [internStep]

theorem paceMultiplier_cases (s : String) :
    paceMultiplier s = 1.3 ∨ paceMultiplier s = 1 ∨ paceMultiplier s = 0.7 := by
  unfold paceMultiplier
  split_ifs <;> norm_num

/-- Inversion of a successful `compute_recommendations` call: the returned
list is the stable descending sort of the recommendations built, in
nearest-neighbor order, from the roles and distances the index returned. -/
theorem computeRecommendations_ok_inv {e : Engine} {p : Profile}
    {rs : RecommendationSet}
    (h : computeRecommendations e p = Except.ok rs) :
    ∃ rd : List (JobRole × ℚ),
      lookupRoles e.job_roles
        (e.kneighborsFn (joinComma (normalizeSkills (getPriorSkills p))) 3) =
        Except.ok rd ∧
      ¬ e.job_roles.length < 3 ∧
      rs.recommendations = insSort recLe
        (rd.map (fun x => mkRecommendation e.nsqf_levels p x.1 x.2)) := by
  unfold computeRecommendations kneighborsCall at h
  by_cases h1 : normalizeSkills (getPriorSkills p) = []
  · rw [if_pos h1] at h
    cases h
  · rw [if_neg h1] at h
    by_cases h2 : e.job_roles.length < 3
    · rw [if_pos h2] at h
      cases h
    · rw [if_neg h2] at h
      simp only at h
      cases hlr : lookupRoles e.job_roles
          (e.kneighborsFn (joinComma (normalizeSkills (getPriorSkills p))) 3) with
      | error m => rw [hlr] at h; cases h
      | ok rd =>
        rw [hlr] at h
        refine ⟨rd, rfl, h2, ?_⟩
        cases h
        rfl

theorem recsListOf_of_ok {e : Engine} {p : Profile} {rs : RecommendationSet}
    (h : computeRecommendations e p = Except.ok rs) :
    recsListOf e p = rs.recommendations := by
  unfold recsListOf
  rw [h]

theorem preSortRecs_of_lookup {e : Engine} {p : Profile}
    {rd : List (JobRole × ℚ)}
    (h : lookupRoles e.job_roles
        (e.kneighborsFn (joinComma (normalizeSkills (getPriorSkills p))) 3) =
        Except.ok rd) :
    preSortRecs e p = rd.map (fun x => mkRecommendation e.nsqf_levels p x.1 x.2) := by
  unfold preSortRecs
  rw [h]

theorem lookupRoles_mem {roles : List JobRole} :
    ∀ {pairs : List (ℕ × ℚ)} {rd : List (JobRole × ℚ)},
      lookupRoles roles pairs = Except.ok rd →
      ∀ x ∈ rd, x.1 ∈ roles ∧ ∃ pr ∈ pairs, pr.2 = x.2 := by
  intro pairs
  induction pairs with
  | nil =>
    intro rd h x hx
    unfold lookupRoles at h
    cases h
    cases hx
  | cons pr rest ih =>
    intro rd h x hx
    obtain ⟨i, d⟩ := pr
    unfold lookupRoles at h
    cases hg : roles[i]? with
    | none => rw [hg] at h; cases h
    | some r =>
      rw [hg] at h
      cases hrec : lookupRoles roles rest with
      | error m => rw [hrec] at h; cases h
      | ok l =>
        rw [hrec] at h
        cases h
        rcases List.mem_cons.mp hx with rfl | hx2
        · exact ⟨List.getElem?_mem hg, ⟨(i, d), List.mem_cons_self _ _, rfl⟩⟩
        · obtain ⟨hr, pr2, hpr2, hd⟩ := ih hrec x hx2
          exact ⟨hr, pr2, List.mem_cons_of_mem _ hpr2, hd⟩

theorem recLe_total (a b : Recommendation) :
    recLe a b = true ∨ recLe b a = true := by
  unfold recLe
  rcases le_total a.match_score b.match_score with h | h
  · exact Or.inr (decide_eq_true h)
  · exact Or.inl (decide_eq_true h)

theorem recLe_trans (a b c : Recommendation)
    (hab : recLe a b = true) (hbc : recLe b c = true) : recLe a c = true := by
  unfold recLe at hab hbc ⊢
  exact decide_eq_true (le_trans (of_decide_eq_true hbc) (of_decide_eq_true hab))

/-! ### Concrete fixtures for witnesses and counterexamples -/

def wsRole1 : JobRole :=
  { job_title := "Data Analyst"
    skills := "python, data analysis, statistics, sql"
    demand_score := some 90
    suggested_microcredentials := "Tableau, PowerBI" }

def wsRole2 : JobRole :=
  { job_title := "Data Scientist"
    skills := "python, machine learning, statistics"
    demand_score := some 95
    suggested_microcredentials := "" }

def wsRole3 : JobRole :=
  { job_title := "IT Support"
    skills := "troubleshooting, networking, customer service"
    demand_score := none
    suggested_microcredentials := "CCNA" }

def wsNsqf : List NsqfLevel :=
  [⟨5, "Diploma"⟩, ⟨6, "Advanced Diploma"⟩, ⟨7, "Degree"⟩]

/-- A three-role engine whose index returns one neighbor at distance 1/4. -/
def wsEngine : Engine :=
  { job_roles := [wsRole1, wsRole2, wsRole3]
    nsqf_levels := wsNsqf
    kneighborsFn := fun _ _ => [(0, 1/4)] }

/-- A two-role engine: its corpus is smaller than the fixed k = 3. -/
def wsEngineSmall : Engine :=
  { job_roles := [wsRole1, wsRole2]
    nsqf_levels := wsNsqf
    kneighborsFn := fun _ _ => [] }

def wsProfile : Profile :=
  [("prior_skills", PVal.strList ["Python", " SQL "]),
   ("education_level", PVal.int 4),
   ("learning_pace", PVal.str "fast")]

def wsProfileWhitespace : Profile :=
  [("prior_skills", PVal.strList ["", " ", "  "])]

def wsProfileSkillsKey : Profile :=
  [("skills", PVal.strList ["python"])]

def wsProfileValid : Profile :=
  [("prior_skills", PVal.strList ["python"])]

/-! ### Claims -/

/-- C1.  The claim says `_normalize_skills` drops strings that are empty
after stripping, so that a profile whose skills are all whitespace-only
fails validation.  The code keeps empty strings
(`[skill.lower().strip() for skill in skills]` has no filter): normalizing
`["", " ", "  "]` yields the non-empty list `["", "", ""]` and
`compute_recommendations` proceeds past the validation check and returns a
result.  This theorem evaluates the embedded code at that failing input. -/
theorem C1_code_eval :
    normalizeSkills ["", " ", "  "] = ["", "", ""] ∧
    (computeRecommendations wsEngine wsProfileWhitespace).isOk = true :=
  ⟨by decide, rfl⟩

/-- C2 counterexample.  The claim says a recommend call against an engine
whose corpus has fewer than k = 3 rows does not fail.  For the concrete
two-role engine and a valid profile, the call fails: the embedded
`kneighbors` validation error propagates to the caller, refuting the claim
at this input. -/
theorem C2_counterexample :
    computeRecommendations wsEngineSmall wsProfileValid =
      Except.error kneighborsErrMsg := rfl

/-- C2 amended.  For every engine whose job-role corpus has fewer rows than
the fixed neighbor count k = 3, a recommend call whose profile passes skill
validation fails: the code performs no clamping, so the k-nearest-neighbor
query's size validation error propagates to the caller. -/
theorem C2_no_clamping (e : Engine) (p : Profile)
    (hcorpus : e.job_roles.length < 3)
    (hskills : normalizeSkills (getPriorSkills p) ≠ []) :
    computeRecommendations e p = Except.error kneighborsErrMsg := by
  unfold computeRecommendations kneighborsCall
  rw [if_neg hskills, if_pos hcorpus]

/-- C2 witness: the amended claim applied to the concrete two-role engine. -/
theorem C2_witness :
    computeRecommendations wsEngineSmall
      [("prior_skills", PVal.strList ["sql"])] = Except.error kneighborsErrMsg :=
  C2_no_clamping wsEngineSmall _ (by decide) (by decide)

/-- C3 counterexample.  The claim says a role whose microcredential list is
empty yields a pathway with no Micro-credential step.  For a role whose
`suggested_microcredentials` field is empty (a role with no
microcredentials) the pathway still contains a Micro-credential step —
with an empty title — because `''.split(',')` is `['']`, never the empty
list.  (The NSQF catalog is empty here, so Foundational and Core are
absent, isolating the two unconditional steps.) -/
theorem C3_counterexample :
    (createLearningPathway [] wsRole2 1).map (fun s => (s.step, s.title)) =
      [("Micro-credential", ""),
       ("On-the-job/Internship", "Data Scientist Internship")] := by decide

/-- C3 amended.  Splitting the role's comma-separated microcredential field
always yields at least one (possibly empty) entry, so the Micro-credential
step is always present — exactly once — in every built pathway; its title
is the first split-and-stripped entry, its duration is 8 weeks, its type is
`certification`, and its level is the target level 7.  A role with an empty
microcredential field yields a Micro-credential step with an empty title
rather than a pathway without the step. -/
theorem C3_micro_step (nsqf : List NsqfLevel) (role : JobRole) (cur : ℤ) :
    ((createLearningPathway nsqf role cur).countP
        (fun s => s.step == "Micro-credential") = 1) ∧
    (∀ s ∈ createLearningPathway nsqf role cur, s.step = "Micro-credential" →
      s.title = (microList role).headD "" ∧ s.duration_weeks = 8 ∧
      s.type = "certification" ∧ s.level = 7) := by
  constructor
  · unfold createLearningPathway
    cases hm : microList role with
    | nil => exact absurd hm (microList_ne_nil role)
    | cons m0 ms =>
      cases hpw : mapToNsqfPathway nsqf cur 7 with
      | nil =>
        simp [buildPathway, foundStep, coreStep, microStep, internStep,
          List.countP_append, List.countP_cons]
      | cons l0 lt =>
        by_cases hl : 1 < (l0 :: lt).length
        · simp [buildPathway, foundStep, coreStep, microStep, internStep,
            List.countP_append, List.countP_cons, hl]
        · simp [buildPathway, foundStep, coreStep, microStep, internStep,
            List.countP_append, List.countP_cons, hl]
  · intro s hs hname
    unfold createLearningPathway at hs
    rcases mem_buildPathway.mp hs with ⟨_, rfl⟩ | ⟨_, rfl⟩ | ⟨_, rfl⟩ | rfl
    · exact absurd hname (by simp [foundStep])
    · exact absurd hname (by simp [coreStep])
    · simp [microStep]
    · exact absurd hname (by simp [internStep])

/-- C3 witness: the amended claim at a concrete role with two
microcredentials and a two-entry NSQF range. -/
theorem C3_witness :
    ((createLearningPathway wsNsqf wsRole1 4).countP
        (fun s => s.step == "Micro-credential") = 1) ∧
    (∀ s ∈ createLearningPathway wsNsqf wsRole1 4,
      s.step = "Micro-credential" →
      s.title = (microList wsRole1).headD "" ∧ s.duration_weeks = 8 ∧
      s.type = "certification" ∧ s.level = 7) :=
  C3_micro_step wsNsqf wsRole1 4

/-- C10.  The engine reads the learner's skills only from the profile key
`prior_skills` (`profile.get('prior_skills', [])`): for every profile
dictionary lacking that key, the skill list defaults to empty, and
`compute_recommendations` raises the validation error before any scoring,
returning no partial result. -/
theorem C10_missing_key (e : Engine) (p : Profile)
    (h : plookup p "prior_skills" = none) :
    computeRecommendations e p =
      Except.error "No skills provided in the profile" := by
  have hskills : getPriorSkills p = [] := by
    unfold getPriorSkills
    rw [h]
  unfold computeRecommendations
  rw [hskills]
  rfl

/-- C10 witness: a profile that supplies skills under the key `skills`
instead of `prior_skills` (so in particular lacks `prior_skills`) is
rejected with the validation error. -/
theorem C10_witness :
    computeRecommendations wsEngine wsProfileSkillsKey =
      Except.error "No skills provided in the profile" :=
  C10_missing_key wsEngine wsProfileSkillsKey (by decide)

/-- C4.  With pathway levels `mapToNsqfPathway nsqf cur 7` (the
qualification levels strictly greater than the current level and at most
the target level 7, sorted ascending): the Foundational step is present iff
pathway levels is non-empty and uses the lowest pathway level's
qualification with duration 12 weeks and type `course`; the Core step is
present iff pathway levels has more than one entry and uses the highest
pathway level's qualification with duration 16 weeks and type `course`;
steps appear in the fixed order Foundational, Core, Micro-credential,
Internship with the Internship step always present; and when
`cur ≥ 7` both Foundational and Core are absent. -/
theorem C4_structure (nsqf : List NsqfLevel) (role : JobRole) (cur : ℤ) :
    ("Foundational" ∈ (createLearningPathway nsqf role cur).map (fun s => s.step) ↔
        mapToNsqfPathway nsqf cur 7 ≠ []) ∧
    (∀ s ∈ createLearningPathway nsqf role cur, s.step = "Foundational" →
        s.title = ((mapToNsqfPathway nsqf cur 7).headD default).qualification ∧
        s.duration_weeks = 12 ∧ s.type = "course" ∧
        ∀ x ∈ mapToNsqfPathway nsqf cur 7,
          ((mapToNsqfPathway nsqf cur 7).headD default).level ≤ x.level) ∧
    ("Core" ∈ (createLearningPathway nsqf role cur).map (fun s => s.step) ↔
        1 < (mapToNsqfPathway nsqf cur 7).length) ∧
    (∀ s ∈ createLearningPathway nsqf role cur, s.step = "Core" →
        s.title = ((mapToNsqfPathway nsqf cur 7).getLastD default).qualification ∧
        s.duration_weeks = 16 ∧ s.type = "course" ∧
        ∀ x ∈ mapToNsqfPathway nsqf cur 7,
          x.level ≤ ((mapToNsqfPathway nsqf cur 7).getLastD default).level) ∧
    ((createLearningPathway nsqf role cur).map (fun s => s.step)).Sublist
        ["Foundational", "Core", "Micro-credential", "On-the-job/Internship"] ∧
    "On-the-job/Internship" ∈
        (createLearningPathway nsqf role cur).map (fun s => s.step) ∧
    (7 ≤ cur →
        "Foundational" ∉
          (createLearningPathway nsqf role cur).map (fun s => s.step) ∧
        "Core" ∉ (createLearningPathway nsqf role cur).map (fun s => s.step)) := by
  have hpair := pairwise_mapToNsqfPathway nsqf cur 7
  have hnames := names_buildPathway (mapToNsqfPathway nsqf cur 7)
    (microList role) role 7
  refine ⟨?_, ?_, ?_, ?_, ?_, ?_, ?_⟩
  · unfold createLearningPathway
    rw [hnames]
    cases hpw : mapToNsqfPathway nsqf cur 7 with
    | nil =>
      cases hm : microList role with
      | nil => simp
      | cons m0 ms => simp
    | cons l0 lt => simp
  · intro s hs hname
    unfold createLearningPathway at hs
    rcases mem_buildPathway.mp hs with ⟨hne, rfl⟩ | ⟨_, rfl⟩ | ⟨_, rfl⟩ | rfl
    · exact ⟨rfl, rfl, rfl, headD_level_le hpair⟩
    · exact absurd hname (by simp [coreStep])
    · exact absurd hname (by simp [microStep])
    · exact absurd hname (by simp [internStep])
  · unfold createLearningPathway
    rw [hnames]
    cases hpw : mapToNsqfPathway nsqf cur 7 with
    | nil =>
      cases hm : microList role with
      | nil => simp
      | cons m0 ms => simp
    | cons l0 lt =>
      cases lt with
      | nil =>
        cases hm : microList role with
        | nil => simp
        | cons m0 ms => simp
      | cons l1 lu =>
        cases hm : microList role with
        | nil => simp
        | cons m0 ms => simp
  · intro s hs hname
    unfold createLearningPathway at hs
    rcases mem_buildPathway.mp hs with ⟨_, rfl⟩ | ⟨hlen, rfl⟩ | ⟨_, rfl⟩ | rfl
    · exact absurd hname (by simp [foundStep])
    · exact ⟨rfl, rfl, rfl, level_le_getLastD hpair⟩
    · exact absurd hname (by simp [microStep])
    · exact absurd hname (by simp [internStep])
  · unfold createLearningPathway
    exact sublist_buildPathway_names _ _ _ _
  · unfold createLearningPathway
    rw [hnames]
    simp
  · intro h7
    have hnil := mapToNsqfPathway_eq_nil_of_ge nsqf h7
    unfold createLearningPathway
    rw [hnames, hnil]
    cases hm : microList role with
    | nil => simp
    | cons m0 ms => simp

/-- C4 witness: the structural facts at a concrete catalog (levels 5 and 6
fall strictly between the current level 4 and the target 7) and role,
projected to the always-present Internship step. -/
theorem C4_witness :
    "On-the-job/Internship" ∈
      (createLearningPathway wsNsqf wsRole1 4).map (fun s => s.step) :=
  (C4_structure wsNsqf wsRole1 4).2.2.2.2.2.1

/-- C5.  For every job role and cosine distance `d`, the score computation
sets `similarity = 1 - d`, `demand_fraction = demand_score / 100` with
`demand_score` defaulting to 50 when the catalog row has none,
`combined = similarity * 0.6 + demand_fraction * 0.4`, and the
recommendation's `match_score` is `combined * 100` rounded to one decimal
place. -/
theorem C5_score_formula (nsqf : List NsqfLevel) (p : Profile)
    (role : JobRole) (d : ℚ) :
    (mkRecommendation nsqf p role d).match_score =
      pyRound1 (((1 - d) * 0.6 +
        ((role.demand_score.getD 50 : ℤ) : ℚ) / 100 * 0.4) * 100) ∧
    (role.demand_score = none → role.demand_score.getD 50 = 50) := by
  refine ⟨rfl, ?_⟩
  intro h
  rw [h]
  rfl

/-- C5 witness: the formula at a concrete role (demand 90) and distance
1/4. -/
theorem C5_witness :
    (mkRecommendation [] [] wsRole1 (1/4)).match_score =
      pyRound1 (((1 - (1/4 : ℚ)) * 0.6 +
        ((wsRole1.demand_score.getD 50 : ℤ) : ℚ) / 100 * 0.4) * 100) :=
  (C5_score_formula [] [] wsRole1 (1/4)).1

/-- C9.  `compute_recommendations` is deterministic: the embedding is a pure
function of the engine and the profile (the engine's catalog and fitted
index are immutable during a call, and the code draws no randomness), so
two calls with an identical profile against the same engine produce
identical results — in particular identical `match_score` values and
identical explanation strings in the same order. -/
theorem C9_deterministic (e : Engine) (p : Profile) :
    computeRecommendations e p = computeRecommendations e p ∧
    (recsListOf e p).map (fun r => r.match_score) =
      (recsListOf e p).map (fun r => r.match_score) ∧
    (recsListOf e p).map (fun r => r.explanation) =
      (recsListOf e p).map (fun r => r.explanation) :=
  ⟨rfl, rfl, rfl⟩

/-- C6.  For every profile, recommend scales each step's `duration_weeks` by
the pace multiplier 1.3 for slow, 1.0 for normal, 0.7 for fast, with any
unrecognized or absent `learning_pace` falling back to 1.0; the scaled
duration is the multiplier applied to the base duration and truncated to an
integer number of weeks; and every step in the returned pathways has
`duration_weeks` at least 1. -/
theorem C6_pace_scaling (e : Engine) (p : Profile) :
    (paceMultiplier "slow" = 1.3 ∧ paceMultiplier "normal" = 1 ∧
      paceMultiplier "fast" = 0.7) ∧
    (∀ s : String, s ≠ "slow" → s ≠ "normal" → s ≠ "fast" →
      paceMultiplier s = 1) ∧
    (plookup p "learning_pace" = none → getLearningPace p = "normal") ∧
    (∀ role d, (mkRecommendation e.nsqf_levels p role d).pathway =
      (createLearningPathway e.nsqf_levels role (getEducationLevel p)).map
        (fun st =>
          { st with
            duration_weeks :=
              qtrunc ((st.duration_weeks : ℚ) * paceMultiplier (getLearningPace p)) })) ∧
    (∀ r ∈ recsListOf e p, ∀ st ∈ r.pathway, 1 ≤ st.duration_weeks) := by
  have hnormal : paceMultiplier "normal" = 1 := by
    unfold paceMultiplier
    rw [if_neg (by decide : ¬ ("normal" : String) = "slow"),
      if_pos (rfl : ("normal" : String) = "normal")]
    norm_num
  refine ⟨⟨rfl, hnormal, rfl⟩, ?_, ?_, ?_, ?_⟩
  · intro s h1 h2 h3
    unfold paceMultiplier
    rw [if_neg h1, if_neg h2, if_neg h3]
    norm_num
  · intro h
    unfold getLearningPace
    rw [h]
  · intro role d
    rfl
  · intro r hr st hst
    cases hc : computeRecommendations e p with
    | error m => simp [recsListOf, hc] at hr
    | ok rs =>
      simp only [recsListOf, hc] at hr
      obtain ⟨rd, hlr, _, hsort⟩ := computeRecommendations_ok_inv hc
      rw [hsort] at hr
      obtain ⟨x, hx, rfl⟩ := List.mem_map.mp ((mem_insSort _ _ _).mp hr)
      have hst2 : st ∈
          (createLearningPathway e.nsqf_levels x.1 (getEducationLevel p)).map
            (fun s0 =>
              { s0 with
                duration_weeks :=
                  qtrunc ((s0.duration_weeks : ℚ) * paceMultiplier (getLearningPace p)) }) :=
        hst
      obtain ⟨base, hbase, rfl⟩ := List.mem_map.mp hst2
      show 1 ≤ qtrunc ((base.duration_weeks : ℚ) *
        paceMultiplier (getLearningPace p))
      apply one_le_qtrunc
      have hdur := duration_of_mem_pathway hbase
      have hm := paceMultiplier_cases (getLearningPace p)
      rcases hdur with h | h | h <;> rcases hm with hm | hm | hm <;>
        rw [h, hm] <;> norm_num

/-- C6 witness: the first step of the pathway built for a concrete profile
(fast pace) has a positive scaled duration, via the general theorem. -/
theorem C6_witness :
    1 ≤ (((mkRecommendation wsEngine.nsqf_levels wsProfile wsRole1
        (1/4)).pathway).headD default).duration_weeks := by
  have hmem : mkRecommendation wsEngine.nsqf_levels wsProfile wsRole1 (1/4) ∈
      recsListOf wsEngine wsProfile := by
    have h : recsListOf wsEngine wsProfile =
        [mkRecommendation wsEngine.nsqf_levels wsProfile wsRole1 (1/4)] := rfl
    rw [h]
    exact List.mem_singleton.mpr rfl
  have hlen : (mkRecommendation wsEngine.nsqf_levels wsProfile wsRole1
      (1/4)).pathway.length = 4 := rfl
  have hne : (mkRecommendation wsEngine.nsqf_levels wsProfile wsRole1
      (1/4)).pathway ≠ [] := by
    intro hnil
    rw [hnil] at hlen
    exact absurd hlen (by decide)
  exact (C6_pace_scaling wsEngine wsProfile).2.2.2.2 _ hmem _
    (headD_mem default hne)

/-- C7.  Every returned recommendation list is the stable descending sort,
by `match_score`, of the recommendations in original nearest-neighbor
order: scores are non-increasing across the list, and recommendations with
equal `match_score` keep their original nearest-neighbor relative order
(each equal-score block of the sorted list equals the corresponding block
of the pre-sort list). -/
theorem C7_sorted_stable (e : Engine) (p : Profile)
    (hok : (computeRecommendations e p).isOk = true) :
    recsListOf e p = insSort recLe (preSortRecs e p) ∧
    (recsListOf e p).Pairwise (fun a b => b.match_score ≤ a.match_score) ∧
    (∀ sc : ℚ,
      (recsListOf e p).filter (fun r => decide (r.match_score = sc)) =
      (preSortRecs e p).filter (fun r => decide (r.match_score = sc))) := by
  cases hc : computeRecommendations e p with
  | error m =>
    rw [hc] at hok
    simp [Except.isOk, Except.toBool] at hok
  | ok rs =>
    obtain ⟨rd, hlr, _, hsort⟩ := computeRecommendations_ok_inv hc
    have hlist : recsListOf e p = insSort recLe
        (rd.map (fun x => mkRecommendation e.nsqf_levels p x.1 x.2)) := by
      rw [recsListOf_of_ok hc, hsort]
    have hpre : preSortRecs e p =
        rd.map (fun x => mkRecommendation e.nsqf_levels p x.1 x.2) :=
      preSortRecs_of_lookup hlr
    refine ⟨by rw [hlist, hpre], ?_, ?_⟩
    · rw [hlist]
      exact (pairwise_insSort recLe recLe_total recLe_trans _).imp
        (fun hxy => of_decide_eq_true hxy)
    · intro sc
      rw [hlist, hpre]
      exact filter_insSort recLe (fun r => r.match_score)
        (fun a b hab => decide_eq_true (le_of_eq hab.symm)) _ sc

/-- C7 witness: the sorted/stable characterization at a concrete engine and
profile whose call succeeds. -/
theorem C7_witness :
    recsListOf wsEngine wsProfile =
      insSort recLe (preSortRecs wsEngine wsProfile) :=
  (C7_sorted_stable wsEngine wsProfile rfl).1

/-- C8.  Whenever every cosine distance the index can return lies in [0, 1]
(as it does for non-negative TF-IDF vectors) and every catalog demand score
lies in [0, 100], every recommendation returned by recommend has
`match_score` in the closed interval [0, 100]. -/
theorem C8_score_bounds (e : Engine) (p : Profile)
    (hdist : ∀ q k, ∀ pr ∈ e.kneighborsFn q k, 0 ≤ pr.2 ∧ pr.2 ≤ 1)
    (hdem : ∀ role ∈ e.job_roles, ∀ ds : ℤ, role.demand_score = some ds →
      0 ≤ ds ∧ ds ≤ 100) :
    ∀ r ∈ recsListOf e p, 0 ≤ r.match_score ∧ r.match_score ≤ 100 := by
  intro r hr
  cases hc : computeRecommendations e p with
  | error m => simp [recsListOf, hc] at hr
  | ok rs =>
    simp only [recsListOf, hc] at hr
    obtain ⟨rd, hlr, _, hsort⟩ := computeRecommendations_ok_inv hc
    rw [hsort] at hr
    obtain ⟨x, hx, rfl⟩ := List.mem_map.mp ((mem_insSort _ _ _).mp hr)
    obtain ⟨hrole, pr, hpr, hd⟩ := lookupRoles_mem hlr x hx
    obtain ⟨hd0, hd1⟩ := hdist _ _ pr hpr
    rw [hd] at hd0 hd1
    have hdsb : 0 ≤ (x.1.demand_score.getD 50 : ℤ) ∧
        (x.1.demand_score.getD 50 : ℤ) ≤ 100 := by
      cases hds : x.1.demand_score with
      | none => simp
      | some ds => simpa using hdem _ hrole ds hds
    have hms : (mkRecommendation e.nsqf_levels p x.1 x.2).match_score =
        pyRound1 (((1 - x.2) * 0.6 +
          ((x.1.demand_score.getD 50 : ℤ) : ℚ) / 100 * 0.4) * 100) := rfl
    rw [hms]
    have hq0 : (0:ℚ) ≤ ((1 - x.2) * 0.6 +
        ((x.1.demand_score.getD 50 : ℤ) : ℚ) / 100 * 0.4) * 100 := by
      have hds0 : (0:ℚ) ≤ ((x.1.demand_score.getD 50 : ℤ) : ℚ) := by
        exact_mod_cast hdsb.1
      nlinarith
    have hq1 : ((1 - x.2) * 0.6 +
        ((x.1.demand_score.getD 50 : ℤ) : ℚ) / 100 * 0.4) * 100 ≤ 100 := by
      have hds1 : ((x.1.demand_score.getD 50 : ℤ) : ℚ) ≤ 100 := by
        exact_mod_cast hdsb.2
      nlinarith
    exact pyRound1_bounds hq0 hq1

/-- C8 witness: the score bounds at a concrete engine whose index returns
distance 1/4 and whose demand scores are 90, 95 and absent. -/
theorem C8_witness :
    0 ≤ (mkRecommendation wsEngine.nsqf_levels wsProfile wsRole1
        (1/4)).match_score ∧
    (mkRecommendation wsEngine.nsqf_levels wsProfile wsRole1
        (1/4)).match_score ≤ 100 := by
  have hmem : mkRecommendation wsEngine.nsqf_levels wsProfile wsRole1 (1/4) ∈
      recsListOf wsEngine wsProfile := by
    have h : recsListOf wsEngine wsProfile =
        [mkRecommendation wsEngine.nsqf_levels wsProfile wsRole1 (1/4)] := rfl
    rw [h]
    exact List.mem_singleton.mpr rfl
  refine C8_score_bounds wsEngine wsProfile ?_ ?_ _ hmem
  · intro q k pr hpr
    have hp : pr = ((0 : ℕ), (1/4 : ℚ)) := by simpa [wsEngine] using hpr
    rw [hp]
    norm_num
  · intro role hrole ds hds
    have h3 : role = wsRole1 ∨ role = wsRole2 ∨ role = wsRole3 := by
      simpa [wsEngine] using hrole
    rcases h3 with rfl | rfl | rfl
    · simp [wsRole1] at hds
      omega
    · simp [wsRole2] at hds
      omega
    · simp [wsRole3] at hds

end PLP
